import Mathlib

/-!
A shallow embedding of the frame/block container layer of `src/lz4.c`
(the-lz4-library).  Byte buffers are `List Nat` (one entry per byte);
the external block-compression primitive (`LZ4_compress_*`,
`LZ4_decompress_safe`, `LZ4_compressBound`) and the external XXH32 hash
are not part of this repository's sources and are taken as function
parameters of the definitions that call through them.
-/

namespace LZ4

/-- `write_little_endian_32`: the four little-endian bytes of a 32-bit store. -/
def le32 (v : Nat) : List Nat :=
  [v % 256, v / 256 % 256, v / 65536 % 256, v / 16777216 % 256]

/-- `read_little_endian_32`: read a 32-bit little-endian value from the
first four bytes of a buffer. -/
def rd32 : List Nat → Nat
  | b0 :: b1 :: b2 :: b3 :: _ => b0 + 256 * b1 + 65536 * b2 + 16777216 * b3
  | _ => 0

/-- The seven-byte frame descriptor for 64KB blocks, no checksums
(`_64kb` in the source). -/
def d_64kb : List Nat := [0x04, 0x22, 0x4d, 0x18, 0x60, 0x40, 0x82]

/-- 64KB blocks, content checksum only (`c_64kb`). -/
def c_64kb : List Nat := [0x04, 0x22, 0x4d, 0x18, 0x64, 0x40, 0xa7]

/-- 64KB blocks, block checksum only (`b_64kb`). -/
def b_64kb : List Nat := [0x04, 0x22, 0x4d, 0x18, 0x70, 0x40, 0xad]

/-- 64KB blocks, both checksums (`cb_64kb`). -/
def cb_64kb : List Nat := [0x04, 0x22, 0x4d, 0x18, 0x74, 0x40, 0xbd]

/-- 256KB blocks, no checksums (`_256kb`). -/
def d_256kb : List Nat := [0x04, 0x22, 0x4d, 0x18, 0x60, 0x50, 0xfb]

/-- 256KB blocks, content checksum only (`c_256kb`). -/
def c_256kb : List Nat := [0x04, 0x22, 0x4d, 0x18, 0x64, 0x50, 0x08]

/-- 256KB blocks, block checksum only (`b_256kb`). -/
def b_256kb : List Nat := [0x04, 0x22, 0x4d, 0x18, 0x70, 0x50, 0x84]

/-- 256KB blocks, both checksums (`cb_256kb`). -/
def cb_256kb : List Nat := [0x04, 0x22, 0x4d, 0x18, 0x74, 0x50, 0xff]

/-- 1MB blocks, no checksums (`_1mb`). -/
def d_1mb : List Nat := [0x04, 0x22, 0x4d, 0x18, 0x60, 0x60, 0x51]

/-- 1MB blocks, content checksum only (`c_1mb`). -/
def c_1mb : List Nat := [0x04, 0x22, 0x4d, 0x18, 0x64, 0x60, 0x85]

/-- 1MB blocks, block checksum only (`b_1mb`). -/
def b_1mb : List Nat := [0x04, 0x22, 0x4d, 0x18, 0x70, 0x60, 0x33]

/-- 1MB blocks, both checksums (`cb_1mb`). -/
def cb_1mb : List Nat := [0x04, 0x22, 0x4d, 0x18, 0x74, 0x60, 0xd9]

/-- 4MB blocks, no checksums (`_4mb`). -/
def d_4mb : List Nat := [0x04, 0x22, 0x4d, 0x18, 0x60, 0x70, 0x73]

/-- 4MB blocks, content checksum only (`c_4mb`). -/
def c_4mb : List Nat := [0x04, 0x22, 0x4d, 0x18, 0x64, 0x70, 0xb9]

/-- 4MB blocks, block checksum only (`b_4mb`). -/
def b_4mb : List Nat := [0x04, 0x22, 0x4d, 0x18, 0x70, 0x70, 0x72]

/-- 4MB blocks, both checksums (`cb_4mb`). -/
def cb_4mb : List Nat := [0x04, 0x22, 0x4d, 0x18, 0x74, 0x70, 0x8e]

/-- The sixteen catalogued descriptors, in table order. -/
def validDescriptors : List (List Nat) :=
  [d_64kb, c_64kb, b_64kb, cb_64kb,
   d_256kb, c_256kb, b_256kb, cb_256kb,
   d_1mb, c_1mb, b_1mb, cb_1mb,
   d_4mb, c_4mb, b_4mb, cb_4mb]

/-- `lz4_block_size_s` from the public header. -/
inductive lz4_block_size_t where
  | s64kb | s256kb | s1mb | s4mb
deriving DecidableEq

/-- `lz4_header_t` from the public header. -/
structure lz4_header_t where
  block_size : Nat
  compressed_size : Nat
  size : lz4_block_size_t
  block_checksum : Bool
  content_checksum : Bool
  header : List Nat
deriving DecidableEq

/-- `struct lz4_s`.  The `xxh` field models the `XXH32_state_t` value:
`some bytes` is a state that has been `XXH32_reset` and then updated with
exactly `bytes`; `none` models a state that was never reset (the malloc'd
memory is indeterminate, and updates to it are absorbed into `none`).
`ctx` records whether the session owns compressor working memory
(`r->ctx != NULL`, i.e. compress mode). -/
structure lz4_t where
  size : lz4_block_size_t
  content_checksum : Bool
  block_checksum : Bool
  level : Int
  header : List Nat
  header_size : Nat
  block_size : Nat
  compressed_size : Nat
  block_header_size : Nat
  xxh : Option (List Nat)
  ctx : Bool
deriving DecidableEq

/-- `XXH32_update` on the modelled state: append the bytes when the state
was reset, leave an unreset state indeterminate. -/
def xxhUpdate (st : Option (List Nat)) (bytes : List Nat) : Option (List Nat) :=
  st.map (fun acc => acc ++ bytes)

/-- `XXH32_digest` on the modelled state, given the hash primitive `hash`
and an arbitrary value `junk` standing for the digest of a never-reset
state. -/
def xxhDigest (hash : List Nat → Nat) (junk : Nat) : Option (List Nat) → Nat
  | some acc => hash acc
  | none => junk

/-- `lz4_check_header`, lines 199-306 of `src/lz4.c`.  `bound` is the
external `LZ4_compressBound`.  The byte literals are the entries of the
descriptor tables the source compares `h[0..6]` against. -/
def lz4_check_header (bound : Nat → Nat) (header : List Nat) : Option lz4_header_t :=
  match header with
  | [h0, h1, h2, h3, h4, h5, h6] =>
    if h0 = 0x04 ∧ h1 = 0x22 ∧ h2 = 0x4d ∧ h3 = 0x18 then
      if h5 = 0x40 then
        if h4 = 0x60 ∧ h6 = 0x82 then
          some ⟨64 * 1024, bound (64 * 1024), .s64kb, false, false, d_64kb⟩
        else if h4 = 0x70 ∧ h6 = 0xad then
          some ⟨64 * 1024, bound (64 * 1024), .s64kb, true, false, b_64kb⟩
        else if h4 = 0x64 ∧ h6 = 0xa7 then
          some ⟨64 * 1024, bound (64 * 1024), .s64kb, false, true, c_64kb⟩
        else if h4 = 0x74 ∧ h6 = 0xbd then
          some ⟨64 * 1024, bound (64 * 1024), .s64kb, true, true, cb_64kb⟩
        else none
      else if h5 = 0x50 then
        if h4 = 0x60 ∧ h6 = 0xfb then
          some ⟨256 * 1024, bound (256 * 1024), .s256kb, false, false, d_256kb⟩
        else if h4 = 0x70 ∧ h6 = 0x84 then
          some ⟨256 * 1024, bound (256 * 1024), .s256kb, true, false, b_256kb⟩
        else if h4 = 0x64 ∧ h6 = 0x08 then
          some ⟨256 * 1024, bound (256 * 1024), .s256kb, false, true, c_256kb⟩
        else if h4 = 0x74 ∧ h6 = 0xff then
          some ⟨256 * 1024, bound (256 * 1024), .s256kb, true, true, cb_256kb⟩
        else none
      else if h5 = 0x60 then
        if h4 = 0x60 ∧ h6 = 0x51 then
          some ⟨1024 * 1024, bound (1024 * 1024), .s1mb, false, false, d_1mb⟩
        else if h4 = 0x70 ∧ h6 = 0x33 then
          some ⟨1024 * 1024, bound (1024 * 1024), .s1mb, true, false, b_1mb⟩
        else if h4 = 0x64 ∧ h6 = 0x85 then
          some ⟨1024 * 1024, bound (1024 * 1024), .s1mb, false, true, c_1mb⟩
        else if h4 = 0x74 ∧ h6 = 0xd9 then
          some ⟨1024 * 1024, bound (1024 * 1024), .s1mb, true, true, cb_1mb⟩
        else none
      else if h5 = 0x70 then
        if h4 = 0x60 ∧ h6 = 0x73 then
          some ⟨4 * 1024 * 1024, bound (4 * 1024 * 1024), .s4mb, false, false, d_4mb⟩
        else if h4 = 0x70 ∧ h6 = 0x72 then
          some ⟨4 * 1024 * 1024, bound (4 * 1024 * 1024), .s4mb, true, false, b_4mb⟩
        else if h4 = 0x64 ∧ h6 = 0xb9 then
          some ⟨4 * 1024 * 1024, bound (4 * 1024 * 1024), .s4mb, false, true, c_4mb⟩
        else if h4 = 0x74 ∧ h6 = 0x8e then
          some ⟨4 * 1024 * 1024, bound (4 * 1024 * 1024), .s4mb, true, true, cb_4mb⟩
        else none
      else none
    else none
  | _ => none

/-- `_lz4_init`, lines 339-401.  `bound` is the external
`LZ4_compressBound`.  Note the source never calls `XXH32_reset` here, so
the `xxh` state stays in its post-malloc indeterminate form (`none`). -/
def lz4_init (bound : Nat → Nat) (level : Int) (size : lz4_block_size_t)
    (block_checksum content_checksum : Bool) : lz4_t :=
  let header :=
    match size with
    | .s64kb =>
      if !content_checksum then (if block_checksum then b_64kb else d_64kb)
      else (if block_checksum then cb_64kb else c_64kb)
    | .s256kb =>
      if !content_checksum then (if block_checksum then b_256kb else d_256kb)
      else (if block_checksum then cb_256kb else c_256kb)
    | .s1mb =>
      if !content_checksum then (if block_checksum then b_1mb else d_1mb)
      else (if block_checksum then cb_1mb else c_1mb)
    | .s4mb =>
      if !content_checksum then (if block_checksum then b_4mb else d_4mb)
      else (if block_checksum then cb_4mb else c_4mb)
  let block_size :=
    match size with
    | .s64kb => 64 * 1024
    | .s256kb => 256 * 1024
    | .s1mb => 1024 * 1024
    | .s4mb => 4 * 1024 * 1024
  { size := size
    content_checksum := content_checksum
    block_checksum := block_checksum
    level := level
    header := header
    header_size := 7
    block_size := block_size
    compressed_size := bound block_size
    block_header_size := 4 + (if block_checksum then 4 else 0)
    xxh := none
    ctx := true }

/-- `_lz4_init_decompress`, lines 309-336: validate the descriptor, then
build a decompress-mode session.  Here the source resets the XXH32 state
when the content checksum is enabled, and sets
`block_header_size = block_checksum ? 4 : 0`. -/
def lz4_init_decompress (bound : Nat → Nat) (header : List Nat) : Option lz4_t :=
  match lz4_check_header bound header with
  | none => none
  | some h =>
    some
      { size := h.size
        content_checksum := h.content_checksum
        block_checksum := h.block_checksum
        level := 1
        header := h.header
        header_size := 7
        block_size := h.block_size
        compressed_size := h.compressed_size
        block_header_size := if h.block_checksum then 4 else 0
        xxh := if h.content_checksum then some [] else none
        ctx := false }

/-- `lz4_compress_block`, lines 175-197.  `compressFn src cap` models the
`lz4_compress` adapter call (lines 83-102): it returns the compressed
bytes, and its length is the C return value — the empty list is the
does-not-fit / failure sentinel `0` (the repository's own
`lz4_compress_appending_to_buffer` treats a nonpositive return the same
way).  Result: the updated session, the bytes written at `dest`, and the
C return value. -/
def lz4_compress_block (compressFn : List Nat → Nat → List Nat)
    (hash : List Nat → Nat) (l : lz4_t) (src : List Nat) (dest_len : Nat) :
    lz4_t × List Nat × Nat :=
  let l' :=
    if l.content_checksum then { l with xxh := xxhUpdate l.xxh src } else l
  let comp := compressFn src (dest_len - l.block_header_size)
  let fieldPayload :=
    if comp.length ≥ src.length then (src.length ||| 0x80000000, src)
    else (comp.length, comp)
  let out := le32 fieldPayload.1 ++ fieldPayload.2
  let out :=
    if l.block_checksum then out ++ le32 (hash fieldPayload.2) else out
  (l', out, fieldPayload.2.length + l.block_header_size)

/-- The error results of `lz4_decompress`: `-500` (block-checksum
mismatch) and the negative results of `LZ4_decompress_safe`. -/
inductive DErr where
  | blockChecksumMismatch
  | decompressFailed
deriving DecidableEq

/-- `lz4_decompress`, lines 152-173.  `decompressFn src cap` models
`LZ4_decompress_safe`: `none` is a negative return (malformed or
overflowing payload), `some out` a success producing `out`.  The result
pairs the updated session with the produced bytes (whose length is the C
return value) or the error. -/
def lz4_decompress (decompressFn : List Nat → Nat → Option (List Nat))
    (hash : List Nat → Nat) (l : lz4_t) (src : List Nat) (dest_len : Nat)
    (compressed : Bool) : lz4_t × Except DErr (List Nat) :=
  let checked : Except DErr (List Nat) :=
    if l.block_checksum then
      let checksum := rd32 (src.drop (src.length - 4))
      let body := src.take (src.length - 4)
      if hash body ≠ checksum then .error .blockChecksumMismatch
      else .ok body
    else .ok src
  match checked with
  | .error e => (l, .error e)
  | .ok body =>
    let res : Except DErr (List Nat) :=
      if compressed then
        match decompressFn body dest_len with
        | none => .error .decompressFailed
        | some out => .ok out
      else .ok body
    match res with
    | .error e => (l, .error e)
    | .ok out =>
      (if l.content_checksum then { l with xxh := xxhUpdate l.xxh out } else l,
       .ok out)

/-- `lz4_finish`, lines 104-124.  Compress mode (`ctx` set) returns the
bytes written and the count; decompress mode reads the stored digest from
`dest` and returns `-500` on divergence.  The `Int` is the C return
value, the list the bytes written. -/
def lz4_finish (hash : List Nat → Nat) (junk : Nat) (l : lz4_t)
    (dest : List Nat) : Int × List Nat :=
  if l.ctx then
    if l.content_checksum then
      (8, le32 0 ++ le32 (xxhDigest hash junk l.xxh))
    else (4, le32 0)
  else
    if l.content_checksum then
      if xxhDigest hash junk l.xxh ≠ rd32 dest then (-500, []) else (0, [])
    else (0, [])

/-- The compress-direction data flow of §2 of the spec: feed each raw
block to `lz4_compress_block` with the destination sized by
`lz4_compressed_size` (`compressed_size + block_header_size`, lines
71-73), concatenating the emitted bytes. -/
def encodeBlocks (compressFn : List Nat → Nat → List Nat)
    (hash : List Nat → Nat) (l : lz4_t) :
    List (List Nat) → lz4_t × List Nat
  | [] => (l, [])
  | b :: rest =>
    let r := lz4_compress_block compressFn hash l b
      (l.compressed_size + l.block_header_size)
    let r' := encodeBlocks compressFn hash r.1 rest
    (r'.1, r.2.1 ++ r'.2)

/-- A whole frame body: the encoded blocks followed by the bytes written
by `lz4_finish` (terminal zero marker, then the content digest if
enabled). -/
def encodeFrame (compressFn : List Nat → Nat → List Nat)
    (hash : List Nat → Nat) (junk : Nat) (l : lz4_t)
    (blocks : List (List Nat)) : List Nat :=
  let r := encodeBlocks compressFn hash l blocks
  r.2 ++ (lz4_finish hash junk r.1 []).2

/-- Modelled from the spec: the decompress-direction caller loop (§2 and
§6 of the spec, and the header comment on `lz4_decompress`), which is not
part of `src/`.  The caller reads each 4-byte little-endian length field;
a zero field is the stream terminator; the high bit is the raw flag and
the low 31 bits the payload length; the payload (plus the 4 trailing
checksum bytes when the block checksum is enabled) is handed to
`lz4_decompress` with the session's `block_size` as destination
capacity.  Returns the final session, the concatenated decompressed
bytes, and the bytes remaining after the terminator; `none` on a
truncated stream, a failed block, or fuel exhaustion. -/
def decodeFrame (decompressFn : List Nat → Nat → Option (List Nat))
    (hash : List Nat → Nat) :
    Nat → lz4_t → List Nat → List Nat → Option (lz4_t × List Nat × List Nat)
  | 0, _, _, _ => none
  | fuel + 1, l, stream, acc =>
    if stream.length < 4 then none
    else
      let field := rd32 stream
      if field = 0 then some (l, acc, stream.drop 4)
      else
        let compressed := field < 2 ^ 31
        let plen := field % 2 ^ 31
        let chunk := plen + (if l.block_checksum then 4 else 0)
        if stream.length < 4 + chunk then none
        else
          match lz4_decompress decompressFn hash l ((stream.drop 4).take chunk)
              l.block_size compressed with
          | (_, .error _) => none
          | (l', .ok out) =>
            decodeFrame decompressFn hash fuel l' (stream.drop (4 + chunk))
              (acc ++ out)

theorem le32_length (v : Nat) : (le32 v).length = 4 := rfl

theorem rd32_le32_append (v : Nat) (r : List Nat) :
    rd32 (le32 v ++ r) = v % 2 ^ 32 := by
  simp only [le32, rd32, List.cons_append, List.nil_append]
  omega

theorem lor_two_pow_of_lt {a n : Nat} (h : a < 2 ^ n) :
    a ||| 2 ^ n = a + 2 ^ n := by
  apply Nat.eq_of_testBit_eq
  intro i
  rw [Nat.testBit_lor]
  rcases Nat.lt_trichotomy i n with hi | hi | hi
  · rw [Nat.testBit_two_pow_of_ne (Nat.ne_of_gt hi), Nat.add_comm,
      Nat.testBit_two_pow_add_gt hi]
    simp
  · subst hi
    rw [Nat.testBit_two_pow_self, Nat.add_comm, Nat.testBit_two_pow_add_eq,
      Nat.testBit_lt_two_pow h]
    simp
  · have h2 : 2 ^ (n + 1) ≤ 2 ^ i := Nat.pow_le_pow_right (by norm_num) hi
    have h3 : 2 ^ (n + 1) = 2 ^ n + 2 ^ n := by rw [Nat.pow_succ]; omega
    have h4 : a + 2 ^ n < 2 ^ i := by omega
    have h5 : a < 2 ^ i := by omega
    rw [Nat.testBit_lt_two_pow h4, Nat.testBit_lt_two_pow h5,
      Nat.testBit_two_pow_of_ne (Nat.ne_of_lt hi)]
    simp

/-- A closed-form restatement of `lz4_decompress` used by the claim
proofs: first the block-checksum gate, then the decompress-or-copy step,
then the content-accumulator update. -/
theorem lz4_decompress_eq (decompressFn : List Nat → Nat → Option (List Nat))
    (hash : List Nat → Nat) (l : lz4_t) (src : List Nat) (d : Nat)
    (c : Bool) :
    lz4_decompress decompressFn hash l src d c
      = if l.block_checksum = true
          ∧ hash (src.take (src.length - 4)) ≠ rd32 (src.drop (src.length - 4))
        then (l, .error .blockChecksumMismatch)
        else
          match (if c then
              decompressFn
                (if l.block_checksum then src.take (src.length - 4) else src) d
            else
              some (if l.block_checksum then src.take (src.length - 4)
                else src)) with
          | none => (l, .error .decompressFailed)
          | some out =>
            (if l.content_checksum then { l with xxh := xxhUpdate l.xxh out }
             else l, .ok out) := by
  by_cases hbc : l.block_checksum = true
  · by_cases hne : hash (src.take (src.length - 4))
        = rd32 (src.drop (src.length - 4))
    · have hcond : ¬ (hash (src.take (src.length - 4))
          ≠ rd32 (src.drop (src.length - 4))) := by simpa using hne
      rw [if_neg (by simp [hne])]
      simp only [lz4_decompress, hbc, if_true, if_neg hcond]
      cases c
      · simp
      · cases hdf : decompressFn (src.take (src.length - 4)) d <;> simp [hdf]
    · rw [if_pos ⟨hbc, hne⟩]
      simp [lz4_decompress, hbc, hne]
  · have hbc' : l.block_checksum = false := by simpa using hbc
    rw [if_neg (by simp [hbc'])]
    simp only [lz4_decompress, hbc', Bool.false_eq_true, if_false]
    cases c
    · simp
    · cases hdf : decompressFn src d <;> simp [hdf]

/-- C2 (amended): a compression session has
`block_header_size = 4 + (block_checksum ? 4 : 0)`, while a decompression
session built from a valid descriptor has
`block_header_size = (block_checksum ? 4 : 0)` — the 4-byte length field
is read by the caller before `lz4_decompress` and is not counted there. -/
theorem c2_block_header_size (bound : Nat → Nat) (level : Int)
    (size : lz4_block_size_t) (bc cc : Bool) (hdr : List Nat) (l : lz4_t)
    (hl : lz4_init_decompress bound hdr = some l) :
    (lz4_init bound level size bc cc).block_header_size
      = 4 + (if bc then 4 else 0)
    ∧ l.block_header_size = (if l.block_checksum then 4 else 0) := by
  constructor
  · cases size <;> simp [lz4_init]
  · unfold lz4_init_decompress at hl
    cases hc : lz4_check_header bound hdr with
    | none => rw [hc] at hl; exact absurd hl (by simp)
    | some hh =>
      rw [hc] at hl
      simp only [Option.some.injEq] at hl
      rw [← hl]

/-- C2 witness: concrete compression and decompression sessions for the
64KB class with the block checksum enabled. -/
theorem c2_block_header_size_witness :
    (lz4_init (fun n => n + 16) 1 .s64kb true false).block_header_size
      = 4 + (if true then 4 else 0)
    ∧ (⟨.s64kb, false, true, 1, b_64kb, 7, 65536, 65552, 4, none, false⟩
        : lz4_t).block_header_size
      = (if (⟨.s64kb, false, true, 1, b_64kb, 7, 65536, 65552, 4, none, false⟩
          : lz4_t).block_checksum then 4 else 0) :=
  c2_block_header_size (fun n => n + 16) 1 .s64kb true false b_64kb _ rfl

/-- C2 counterexample: the decompression session built from the
64KB/no-checksum descriptor has `block_header_size = 0`, not
`4 + (block_checksum ? 4 : 0) = 4` as the claim states. -/
theorem c2_counterexample :
    (lz4_init_decompress (fun n => n + 16) d_64kb).map lz4_t.block_header_size
      = some 0
    ∧ (0 : Nat) ≠ 4 + 0 := ⟨rfl, by decide⟩

/-- C3: `_lz4_init_decompress` resets the content-checksum accumulator
(`XXH32_reset`) when the content checksum is enabled, but `_lz4_init`
never does — the compress-mode accumulator keeps its indeterminate
post-malloc state (`none` in the model), contradicting the claim that
both constructors reset it. -/
theorem c3_reset_only_in_decompress :
    (lz4_init (fun n => n + 16) 1 .s64kb false true).content_checksum = true
    ∧ (lz4_init (fun n => n + 16) 1 .s64kb false true).xxh = none
    ∧ (lz4_init_decompress (fun n => n + 16) c_64kb).map lz4_t.xxh
        = some (some []) := ⟨rfl, rfl, rfl⟩

/-- C4: when the block-compressor adapter reports the does-not-fit
sentinel (an empty compressed result, C return value `0`) on a nonempty
input, `lz4_compress_block` does not fall back to raw storage: it takes
the `compressed_size < src_len` branch and writes a plain zero length
field with no payload — the encoding of the stream terminator — instead
of the high-bit raw marker followed by the input bytes. -/
theorem c4_sentinel_not_stored_raw :
    (lz4_compress_block (fun _ _ => []) (fun _ => 0)
        (lz4_init (fun n => n + 16) 1 .s64kb false false) [42] 100).2.1
      = le32 0
    ∧ le32 0 ≠ le32 (1 ||| 0x80000000) ++ [42] := ⟨rfl, by decide⟩

/-- C6: a block whose compressed size is at least its raw size is stored
raw — the length field is the raw length with bit 31 set, the payload is
the input verbatim (then the block checksum over that payload if
enabled), and the returned size counts the raw payload plus the block
header. -/
theorem c6_raw_fallback (compressFn : List Nat → Nat → List Nat)
    (hash : List Nat → Nat) (l : lz4_t) (src : List Nat) (dest_len : Nat)
    (hfit : (compressFn src (dest_len - l.block_header_size)).length
      ≥ src.length) :
    (lz4_compress_block compressFn hash l src dest_len).2.1
      = le32 (src.length ||| 0x80000000) ++ src
        ++ (if l.block_checksum then le32 (hash src) else [])
    ∧ (lz4_compress_block compressFn hash l src dest_len).2.2
      = src.length + l.block_header_size := by
  unfold lz4_compress_block
  simp only [ge_iff_le, hfit, if_true]
  cases hb : l.block_checksum <;> simp

/-- C6 witness: an identity "compressor" never shrinks its input, so a
one-byte block in a 64KB block-checksum session is stored raw. -/
theorem c6_raw_fallback_witness :
    (lz4_compress_block (fun s _ => s) (fun _ => 3)
        (lz4_init (fun n => n + 16) 1 .s64kb true false) [7] 100).2.1
      = le32 (1 ||| 0x80000000) ++ [7]
        ++ (if (lz4_init (fun n => n + 16) 1 .s64kb true false).block_checksum
            then le32 3 else [])
    ∧ (lz4_compress_block (fun s _ => s) (fun _ => 3)
        (lz4_init (fun n => n + 16) 1 .s64kb true false) [7] 100).2.2
      = 1 + (lz4_init (fun n => n + 16) 1 .s64kb true false).block_header_size := by
  have h := c6_raw_fallback (fun s _ => s) (fun _ => 3)
    (lz4_init (fun n => n + 16) 1 .s64kb true false) [7] 100 (by decide)
  simpa using h

/-- C7: with the block checksum enabled, `lz4_compress_block` appends the
4-byte hash of exactly the payload written after the length field, and
`lz4_decompress` recomputes the hash of the bytes before the trailing
four, fails with the block-checksum-mismatch error exactly when it
differs from the stored value, and otherwise proceeds on the source
shrunk by those 4 bytes. -/
theorem c7_block_checksum (compressFn : List Nat → Nat → List Nat)
    (decompressFn : List Nat → Nat → Option (List Nat))
    (hash : List Nat → Nat) (l : lz4_t) (src dsrc : List Nat)
    (dest_len ddest_len : Nat) (compressed : Bool)
    (hbc : l.block_checksum = true) (_hlen : 4 ≤ dsrc.length) :
    (lz4_compress_block compressFn hash l src dest_len).2.1
      = le32 (if (compressFn src (dest_len - l.block_header_size)).length
                ≥ src.length
              then src.length ||| 0x80000000
              else (compressFn src (dest_len - l.block_header_size)).length)
        ++ (if (compressFn src (dest_len - l.block_header_size)).length
              ≥ src.length
            then src else compressFn src (dest_len - l.block_header_size))
        ++ le32 (hash
            (if (compressFn src (dest_len - l.block_header_size)).length
              ≥ src.length
            then src else compressFn src (dest_len - l.block_header_size)))
    ∧ ((lz4_decompress decompressFn hash l dsrc ddest_len compressed).2
          = .error .blockChecksumMismatch
        ↔ hash (dsrc.take (dsrc.length - 4))
          ≠ rd32 (dsrc.drop (dsrc.length - 4)))
    ∧ (hash (dsrc.take (dsrc.length - 4))
        = rd32 (dsrc.drop (dsrc.length - 4)) →
      (lz4_decompress decompressFn hash l dsrc ddest_len compressed).2
        = (lz4_decompress decompressFn hash
            { l with block_checksum := false }
            (dsrc.take (dsrc.length - 4)) ddest_len compressed).2) := by
  refine ⟨?_, ?_, ?_⟩
  · unfold lz4_compress_block
    simp only [hbc, if_true]
    split_ifs <;> simp
  · simp only [lz4_decompress, hbc, if_true]
    by_cases hne : hash (dsrc.take (dsrc.length - 4))
        = rd32 (dsrc.drop (dsrc.length - 4))
    · have hcond : ¬ (hash (dsrc.take (dsrc.length - 4))
          ≠ rd32 (dsrc.drop (dsrc.length - 4))) := by simpa using hne
      simp only [if_neg hcond, ne_eq, hne, not_true_eq_false, iff_false]
      cases compressed
      · simp
      · cases hdf : decompressFn (dsrc.take (dsrc.length - 4)) ddest_len <;>
          simp [hdf]
    · have hcond : hash (dsrc.take (dsrc.length - 4))
          ≠ rd32 (dsrc.drop (dsrc.length - 4)) := hne
      simp only [if_pos hcond]
      simpa using hcond
  · intro hmatch
    have hcond : ¬ (hash (dsrc.take (dsrc.length - 4))
        ≠ rd32 (dsrc.drop (dsrc.length - 4))) := by simpa using hmatch
    simp only [lz4_decompress, hbc, if_true, if_neg hcond]
    cases compressed
    · simp
    · cases hdf : decompressFn (dsrc.take (dsrc.length - 4)) ddest_len <;>
        simp [hdf]

/-- C7 witness: a four-byte source whose stored checksum matches the
recomputed one (hash constantly 3, stored bytes `le32 3`), in a
block-checksum session. -/
theorem c7_block_checksum_witness :
    (lz4_compress_block (fun s _ => s) (fun _ => 3)
        (lz4_init (fun n => n + 16) 1 .s64kb true false) [9] 100).2.1
      = le32 (1 ||| 0x80000000) ++ [9] ++ le32 3
    ∧ ((lz4_decompress (fun _ _ => none) (fun _ => 3)
          (lz4_init (fun n => n + 16) 1 .s64kb true false)
          (le32 3) 5 false).2 = .error .blockChecksumMismatch
        ↔ (3 : Nat) ≠ rd32 (le32 3))
    ∧ ((3 : Nat) = rd32 (le32 3) →
      (lz4_decompress (fun _ _ => none) (fun _ => 3)
          (lz4_init (fun n => n + 16) 1 .s64kb true false)
          (le32 3) 5 false).2
        = (lz4_decompress (fun _ _ => none) (fun _ => 3)
            { lz4_init (fun n => n + 16) 1 .s64kb true false with
                block_checksum := false } [] 5 false).2) := by
  have h := c7_block_checksum (fun s _ => s) (fun _ _ => none) (fun _ => 3)
    (lz4_init (fun n => n + 16) 1 .s64kb true false) [9] (le32 3) 100 5 false
    rfl (by decide)
  simpa using h

/-- C8: in compress mode `lz4_finish` writes the zero terminal marker,
then the content digest when enabled, returning 8 or 4; in decompress
mode it returns -500 exactly when the content checksum is enabled and
the stored digest differs from the accumulated one, and 0 otherwise. -/
theorem c8_finish (hash : List Nat → Nat) (junk : Nat) (l : lz4_t)
    (dest : List Nat) :
    (l.ctx = true →
      lz4_finish hash junk l dest
        = (if l.content_checksum then 8 else 4,
           le32 0 ++ if l.content_checksum
             then le32 (xxhDigest hash junk l.xxh) else []))
    ∧ (l.ctx = false →
      lz4_finish hash junk l dest
        = if l.content_checksum = true
            ∧ xxhDigest hash junk l.xxh ≠ rd32 dest
          then (-500, []) else (0, [])) := by
  constructor
  · intro hctx
    unfold lz4_finish
    simp only [hctx, if_true]
    split_ifs <;> simp
  · intro hctx
    unfold lz4_finish
    simp only [hctx, Bool.false_eq_true, if_false]
    split_ifs <;> simp_all

/-- C8 witness: a compress-mode session with content checksum (digest of
the accumulated bytes `[1]` under the constant-5 hash) and a
decompress-mode session whose stored digest matches. -/
theorem c8_finish_witness :
    lz4_finish (fun _ => 5) 0
        ⟨.s64kb, true, false, 1, c_64kb, 7, 65536, 65552, 8, some [1], true⟩ []
      = (8, le32 0 ++ le32 5)
    ∧ lz4_finish (fun _ => 5) 0
        ⟨.s64kb, true, false, 1, c_64kb, 7, 65536, 65552, 0, some [1], false⟩
        (le32 5)
      = (0, []) := by
  have h1 := (c8_finish (fun _ => 5) 0
    ⟨.s64kb, true, false, 1, c_64kb, 7, 65536, 65552, 8, some [1], true⟩ []).1 rfl
  have h2 := (c8_finish (fun _ => 5) 0
    ⟨.s64kb, true, false, 1, c_64kb, 7, 65536, 65552, 0, some [1], false⟩
    (le32 5)).2 rfl
  constructor
  · simpa using h1
  · rw [h2]; simp [xxhDigest, rd32, le32]

/-- C9: the content accumulator receives exactly the uncompressed bytes
of each block, once per block: `lz4_compress_block` appends the raw
input, a successful `lz4_decompress` appends exactly the bytes it
produced, and a failed one (checksum mismatch or decompression failure)
leaves the accumulator untouched.  Nothing changes when the content
checksum is disabled. -/
theorem c9_content_accumulator (compressFn : List Nat → Nat → List Nat)
    (decompressFn : List Nat → Nat → Option (List Nat))
    (hash : List Nat → Nat) (l : lz4_t) (src dsrc : List Nat)
    (dest_len ddest_len : Nat) (compressed : Bool) :
    ((lz4_compress_block compressFn hash l src dest_len).1.xxh
      = if l.content_checksum then xxhUpdate l.xxh src else l.xxh)
    ∧ (∀ l' out,
        lz4_decompress decompressFn hash l dsrc ddest_len compressed
          = (l', .ok out) →
        l'.xxh = if l.content_checksum then xxhUpdate l.xxh out else l.xxh)
    ∧ (∀ l' e,
        lz4_decompress decompressFn hash l dsrc ddest_len compressed
          = (l', .error e) →
        l'.xxh = l.xxh) := by
  refine ⟨?_, ?_, ?_⟩
  · unfold lz4_compress_block
    split_ifs <;> simp_all
  · intro l' out h
    rw [lz4_decompress_eq] at h
    split at h
    · simp at h
    · split at h
      · simp at h
      · rename_i out2 hdf
        simp only [Prod.mk.injEq, Except.ok.injEq] at h
        obtain ⟨h1, h2⟩ := h
        subst h2
        rw [← h1]
        split_ifs with hcc <;> simp
  · intro l' e h
    rw [lz4_decompress_eq] at h
    split at h
    · simp only [Prod.mk.injEq] at h
      rw [← h.1]
    · split at h
      · simp only [Prod.mk.injEq] at h
        rw [← h.1]
      · simp only [Prod.mk.injEq] at h
        exact absurd h.2 (by simp)

/-- C9 witness: with content checksum enabled and accumulator `some []`,
compressing `[5]` accumulates `[5]`; decompressing the raw block `[5]`
accumulates `[5]`; a failing decompression of a compressed block leaves
the accumulator at `some []`. -/
theorem c9_content_accumulator_witness :
    ((lz4_compress_block (fun s _ => s) (fun _ => 0)
        ⟨.s64kb, true, false, 1, c_64kb, 7, 65536, 65552, 4, some [], true⟩
        [5] 100).1.xxh = some [5])
    ∧ ((lz4_decompress (fun _ _ => none) (fun _ => 0)
        ⟨.s64kb, true, false, 1, c_64kb, 7, 65536, 65552, 0, some [], false⟩
        [5] 10 false).1.xxh = some [5])
    ∧ ((lz4_decompress (fun _ _ => none) (fun _ => 0)
        ⟨.s64kb, true, false, 1, c_64kb, 7, 65536, 65552, 0, some [], false⟩
        [5] 10 true).1.xxh = some []) := by
  have h := c9_content_accumulator (fun s _ => s) (fun _ _ => none)
    (fun _ => 0)
    ⟨.s64kb, true, false, 1, c_64kb, 7, 65536, 65552, 4, some [], true⟩
    [5] [5] 100 10 false
  have h2 := c9_content_accumulator (fun s _ => s) (fun _ _ => none)
    (fun _ => 0)
    ⟨.s64kb, true, false, 1, c_64kb, 7, 65536, 65552, 0, some [], false⟩
    [5] [5] 100 10 false
  have h3 := c9_content_accumulator (fun s _ => s) (fun _ _ => none)
    (fun _ => 0)
    ⟨.s64kb, true, false, 1, c_64kb, 7, 65536, 65552, 0, some [], false⟩
    [5] [5] 100 10 true
  refine ⟨by simpa using h.1, ?_, ?_⟩
  · exact (h2.2.1 _ [5] rfl).trans rfl
  · exact (h3.2.2 _ .decompressFailed rfl).trans rfl

/-- C10: on the raw path (`compressed = false`) `lz4_decompress` never
consults the destination capacity: the result is the same for every
`dest_len`, and the copied payload (the whole source without the block
checksum, or the source shrunk by 4 with it) is returned even when it is
longer than `dest_len`. -/
theorem c10_raw_ignores_capacity
    (decompressFn : List Nat → Nat → Option (List Nat))
    (hash : List Nat → Nat) (l : lz4_t) (src : List Nat) (d d' : Nat) :
    (lz4_decompress decompressFn hash l src d false
      = lz4_decompress decompressFn hash l src d' false)
    ∧ (l.block_checksum = false →
        (lz4_decompress decompressFn hash l src d false).2 = .ok src)
    ∧ (l.block_checksum = true →
        hash (src.take (src.length - 4)) = rd32 (src.drop (src.length - 4)) →
        (lz4_decompress decompressFn hash l src d false).2
          = .ok (src.take (src.length - 4))) := by
  refine ⟨?_, ?_, ?_⟩
  · unfold lz4_decompress
    split_ifs <;> simp_all
  · intro hbc
    unfold lz4_decompress
    simp [hbc]
  · intro hbc hmatch
    unfold lz4_decompress
    simp [hbc, hmatch]

/-- C10 witness: a three-byte raw payload with destination capacity 0 is
still copied and returned in full. -/
theorem c10_raw_ignores_capacity_witness :
    (lz4_decompress (fun _ _ => none) (fun _ => 0)
        ⟨.s64kb, false, false, 1, d_64kb, 7, 65536, 65552, 0, none, false⟩
        [1, 2, 3] 0 false).2 = .ok [1, 2, 3] :=
  (c10_raw_ignores_capacity (fun _ _ => none) (fun _ => 0)
    ⟨.s64kb, false, false, 1, d_64kb, 7, 65536, 65552, 0, none, false⟩
    [1, 2, 3] 0 7).2.1 rfl

set_option maxHeartbeats 3200000 in
/-- C5: `lz4_check_header` succeeds exactly on inputs that are 7 bytes
long, start with the 4-byte magic prefix, and end with one of the 16
catalogued 3-byte suffixes; every other input is rejected. -/
theorem c5_check_header (bound : Nat → Nat) (h : List Nat) :
    (lz4_check_header bound h).isSome
      ↔ h.length = 7 ∧ h.take 4 = [0x04, 0x22, 0x4d, 0x18]
        ∧ h.drop 4 ∈ validDescriptors.map (List.drop 4) := by
  constructor
  · intro hs
    rcases h with _ | ⟨b0, _ | ⟨b1, _ | ⟨b2, _ | ⟨b3, _ | ⟨b4, _ | ⟨b5,
      _ | ⟨b6, _ | ⟨b7, t⟩⟩⟩⟩⟩⟩⟩⟩
    all_goals try (simp [lz4_check_header] at hs; done)
    simp only [lz4_check_header] at hs
    split_ifs at hs <;> try (simp at hs; done)
    all_goals casesm* _ ∧ _
    all_goals subst_vars
    all_goals decide
  · rintro ⟨hlen, htake, hmem⟩
    rcases h with _ | ⟨b0, _ | ⟨b1, _ | ⟨b2, _ | ⟨b3, _ | ⟨b4, _ | ⟨b5,
      _ | ⟨b6, _ | ⟨b7, t⟩⟩⟩⟩⟩⟩⟩⟩
    all_goals try (exfalso; simp_arith at hlen; done)
    have htake4 : [b0, b1, b2, b3] = [0x04, 0x22, 0x4d, 0x18] := htake
    have hmem3 : [b4, b5, b6] ∈
        ([[0x60, 0x40, 0x82], [0x64, 0x40, 0xa7], [0x70, 0x40, 0xad],
          [0x74, 0x40, 0xbd], [0x60, 0x50, 0xfb], [0x64, 0x50, 0x08],
          [0x70, 0x50, 0x84], [0x74, 0x50, 0xff], [0x60, 0x60, 0x51],
          [0x64, 0x60, 0x85], [0x70, 0x60, 0x33], [0x74, 0x60, 0xd9],
          [0x60, 0x70, 0x73], [0x64, 0x70, 0xb9], [0x70, 0x70, 0x72],
          [0x74, 0x70, 0x8e]] : List (List Nat)) := hmem
    simp only [List.cons.injEq, and_true] at htake4
    simp only [List.mem_cons, List.not_mem_nil, or_false, List.cons.injEq,
      and_true] at hmem3
    obtain ⟨h0, h1, h2, h3⟩ := htake4
    subst h0 h1 h2 h3
    rcases hmem3 with ⟨e4, e5, e6⟩ | ⟨e4, e5, e6⟩ | ⟨e4, e5, e6⟩
      | ⟨e4, e5, e6⟩ | ⟨e4, e5, e6⟩ | ⟨e4, e5, e6⟩ | ⟨e4, e5, e6⟩
      | ⟨e4, e5, e6⟩ | ⟨e4, e5, e6⟩ | ⟨e4, e5, e6⟩ | ⟨e4, e5, e6⟩
      | ⟨e4, e5, e6⟩ | ⟨e4, e5, e6⟩ | ⟨e4, e5, e6⟩ | ⟨e4, e5, e6⟩
      | ⟨e4, e5, e6⟩ <;> subst e4 e5 e6 <;> rfl

/-- The bytes emitted by `lz4_compress_block`, in the grouping used by
the stream-decoding proofs: length field, then payload, then the
optional block checksum. -/
theorem compress_block_out (compressFn : List Nat → Nat → List Nat)
    (hash : List Nat → Nat) (l : lz4_t) (b : List Nat) (d : Nat) :
    (lz4_compress_block compressFn hash l b d).2.1
      = le32 (if (compressFn b (d - l.block_header_size)).length ≥ b.length
              then b.length ||| 0x80000000
              else (compressFn b (d - l.block_header_size)).length)
        ++ ((if (compressFn b (d - l.block_header_size)).length ≥ b.length
             then b else compressFn b (d - l.block_header_size))
          ++ (if l.block_checksum then
                le32 (hash (if (compressFn b (d - l.block_header_size)).length
                    ≥ b.length
                  then b else compressFn b (d - l.block_header_size)))
              else [])) := by
  unfold lz4_compress_block
  split_ifs <;> simp_all [ge_iff_le]
  all_goals rw [if_neg (by omega)]

/-- A decode step that hits the 4-byte zero terminal marker stops and
returns the accumulated output. -/
theorem decodeFrame_done (decompressFn : List Nat → Nat → Option (List Nat))
    (hash : List Nat → Nat) (fuel : Nat) (ld : lz4_t) (tail acc : List Nat)
    (htl : 4 ≤ tail.length) (htz : rd32 tail = 0) :
    decodeFrame decompressFn hash (fuel + 1) ld tail acc
      = some (ld, acc, tail.drop 4) := by
  simp only [decodeFrame]
  rw [if_neg (by omega), if_pos htz]

/-- A decode step that consumes one well-formed block: a nonzero length
field, a body of exactly the announced size whose decode succeeds, and
the rest of the stream. -/
theorem decodeFrame_step (decompressFn : List Nat → Nat → Option (List Nat))
    (hash : List Nat → Nat) (fuel : Nat) (ld ld' : lz4_t) (f : Nat)
    (body rest' acc out : List Nat)
    (hf32 : f < 2 ^ 32) (hfne : f ≠ 0)
    (hbody : body.length
      = f % 2 ^ 31 + (if ld.block_checksum then 4 else 0))
    (hdec : lz4_decompress decompressFn hash ld body ld.block_size
        (decide (f < 2 ^ 31)) = (ld', .ok out)) :
    decodeFrame decompressFn hash (fuel + 1) ld (le32 f ++ body ++ rest') acc
      = decodeFrame decompressFn hash fuel ld' rest' (acc ++ out) := by
  have hslen : (le32 f ++ body ++ rest').length
      = 4 + body.length + rest'.length := by
    simp only [List.length_append, le32_length]
  have hr : rd32 (le32 f ++ body ++ rest') = f := by
    rw [List.append_assoc, rd32_le32_append]
    omega
  have hdrop4 : (le32 f ++ body ++ rest').drop 4 = body ++ rest' := by
    rw [List.append_assoc]
    have := List.drop_left (le32 f) (body ++ rest')
    rwa [le32_length] at this
  have htake : (body ++ rest').take
      (f % 2 ^ 31 + (if ld.block_checksum then 4 else 0)) = body := by
    rw [← hbody, List.take_left]
  have hdropall : (le32 f ++ body ++ rest').drop
      (4 + (f % 2 ^ 31 + (if ld.block_checksum then 4 else 0))) = rest' := by
    rw [← hbody, List.append_assoc]
    have h1 : (4 : Nat) + body.length = ((le32 f) ++ body).length := by
      simp only [List.length_append, le32_length]
    have h2 := List.drop_left (le32 f ++ body) rest'
    rw [List.append_assoc] at h2
    rw [h1]
    exact h2
  simp only [decodeFrame]
  rw [if_neg (by omega), hr, if_neg hfne, hdrop4, htake, hdropall,
    if_neg (by omega), hdec]

/-- Decoding a well-formed block body (payload plus the matching block
checksum when enabled) succeeds and accumulates the produced bytes. -/
theorem lz4_decompress_body (decompressFn : List Nat → Nat → Option (List Nat))
    (hash : List Nat → Nat) (ld : lz4_t) (p out : List Nat) (c : Bool)
    (Hhp : hash p < 2 ^ 32)
    (hres : (if c then decompressFn p ld.block_size else some p) = some out) :
    lz4_decompress decompressFn hash ld
        (p ++ (if ld.block_checksum then le32 (hash p) else []))
        ld.block_size c
      = (if ld.content_checksum then { ld with xxh := xxhUpdate ld.xxh out }
         else ld, .ok out) := by
  cases hbc : ld.block_checksum
  · rw [if_neg (by simp), List.append_nil, lz4_decompress_eq,
      if_neg (by simp [hbc])]
    simp only [hbc, Bool.false_eq_true, if_false]
    cases c <;> simp_all
  · rw [if_pos rfl]
    have hlen : (p ++ le32 (hash p)).length = p.length + 4 := by
      simp [le32_length]
    have hsub : (p ++ le32 (hash p)).length - 4 = p.length := by omega
    have htk : (p ++ le32 (hash p)).take ((p ++ le32 (hash p)).length - 4)
        = p := by
      rw [hsub, List.take_left]
    have hdr : (p ++ le32 (hash p)).drop ((p ++ le32 (hash p)).length - 4)
        = le32 (hash p) := by
      rw [hsub, List.drop_left]
    have hrd : rd32 (le32 (hash p)) = hash p := by
      have h := rd32_le32_append (hash p) []
      rw [List.append_nil] at h
      rw [h]
      omega
    rw [lz4_decompress_eq,
      if_neg (by simp [hbc, le32_length, List.take_left, List.drop_left, hrd])]
    rw [if_pos hbc, htk]
    cases c <;> simp_all

/-- `lz4_compress_block` changes only the checksum accumulator of the
session. -/
theorem compress_block_fields (compressFn : List Nat → Nat → List Nat)
    (hash : List Nat → Nat) (l : lz4_t) (src : List Nat) (d : Nat) :
    (lz4_compress_block compressFn hash l src d).1.block_checksum
        = l.block_checksum
    ∧ (lz4_compress_block compressFn hash l src d).1.content_checksum
        = l.content_checksum
    ∧ (lz4_compress_block compressFn hash l src d).1.block_size = l.block_size
    ∧ (lz4_compress_block compressFn hash l src d).1.compressed_size
        = l.compressed_size
    ∧ (lz4_compress_block compressFn hash l src d).1.block_header_size
        = l.block_header_size
    ∧ (lz4_compress_block compressFn hash l src d).1.ctx = l.ctx := by
  unfold lz4_compress_block
  split_ifs <;> simp

/-- Encoding a block list leaves the session's mode and flags intact. -/
theorem encodeBlocks_fields (compressFn : List Nat → Nat → List Nat)
    (hash : List Nat → Nat) :
    ∀ (blocks : List (List Nat)) (l : lz4_t),
      (encodeBlocks compressFn hash l blocks).1.ctx = l.ctx
      ∧ (encodeBlocks compressFn hash l blocks).1.content_checksum
          = l.content_checksum
  | [], _ => ⟨rfl, rfl⟩
  | b :: rest, l => by
    simp only [encodeBlocks]
    have h1 := compress_block_fields compressFn hash l b
      (l.compressed_size + l.block_header_size)
    have h2 := encodeBlocks_fields compressFn hash rest
      (lz4_compress_block compressFn hash l b
        (l.compressed_size + l.block_header_size)).1
    exact ⟨h2.1.trans h1.2.2.2.2.2, h2.2.trans h1.2.1⟩

/-- The bytes written by a compress-mode `lz4_finish` start with the
4-byte zero terminal marker. -/
theorem finish_tail (hash : List Nat → Nat) (junk : Nat) (l : lz4_t)
    (hctx : l.ctx = true) :
    4 ≤ (lz4_finish hash junk l []).2.length
    ∧ rd32 ((lz4_finish hash junk l []).2) = 0 := by
  unfold lz4_finish
  simp only [hctx, if_true]
  split_ifs <;> constructor <;> simp [le32, rd32]

/-- Decoding the concatenated encodings of a block list (followed by a
terminator-led tail) yields the concatenation of the blocks, for any pair
of sessions that agree on the block-checksum flag, any compressor
producing 32-bit hashes, a compressor that never returns the empty
sentinel on nonempty input, and a decompressor that inverts it. -/
theorem decode_encode_blocks (compressFn : List Nat → Nat → List Nat)
    (decompressFn : List Nat → Nat → Option (List Nat))
    (hash : List Nat → Nat)
    (Hh : ∀ s, hash s < 2 ^ 32)
    (Hpos : ∀ s cap, s ≠ [] → compressFn s cap ≠ [])
    (Hrt : ∀ s cap d, (compressFn s cap).length < s.length → s.length ≤ d →
      decompressFn (compressFn s cap) d = some s) :
    ∀ (blocks : List (List Nat)) (lc ld : lz4_t) (acc tail : List Nat),
      ld.block_checksum = lc.block_checksum →
      (∀ b ∈ blocks, b.length ≤ ld.block_size) →
      ld.block_size < 2 ^ 31 →
      4 ≤ tail.length → rd32 tail = 0 →
      ∃ lfin, decodeFrame decompressFn hash (blocks.length + 1) ld
          ((encodeBlocks compressFn hash lc blocks).2 ++ tail) acc
        = some (lfin, acc ++ blocks.flatten, tail.drop 4)
  | [], lc, ld, acc, tail, _, _, _, htl, htz => by
    refine ⟨ld, ?_⟩
    simp only [encodeBlocks, List.nil_append, List.length_nil,
      List.flatten_nil, List.append_nil]
    exact decodeFrame_done decompressFn hash 0 ld tail acc htl htz
  | b :: rest, lc, ld, acc, tail, hbc, hb, hbs, htl, htz => by
    have hble : b.length ≤ ld.block_size := hb b (List.mem_cons_self b rest)
    have hrest : ∀ x ∈ rest, x.length ≤ ld.block_size :=
      fun x hx => hb x (List.mem_cons_of_mem b hx)
    have hblt : b.length < 2 ^ 31 := lt_of_le_of_lt hble hbs
    have hpow : (0x80000000 : Nat) = 2 ^ 31 := by norm_num
    have hout := compress_block_out compressFn hash lc b
      (lc.compressed_size + lc.block_header_size)
    have hfields := compress_block_fields compressFn hash lc b
      (lc.compressed_size + lc.block_header_size)
    by_cases hraw : (compressFn b
        (lc.compressed_size + lc.block_header_size
          - lc.block_header_size)).length ≥ b.length
    · -- the raw-stored branch
      simp only [if_pos hraw] at hout
      have hflor : b.length ||| 0x80000000 = b.length + 2 ^ 31 := by
        rw [hpow]
        exact lor_two_pow_of_lt hblt
      have hf32 : b.length ||| 0x80000000 < 2 ^ 32 := by
        rw [hflor]; omega
      have hfne : b.length ||| 0x80000000 ≠ 0 := by
        rw [hflor]; omega
      have hmod : (b.length ||| 0x80000000) % 2 ^ 31 = b.length := by
        rw [hflor]; omega
      have hcdec : decide ((b.length ||| 0x80000000) < 2 ^ 31) = false := by
        apply decide_eq_false
        rw [hflor]
        omega
      have hbody : (b ++ (if lc.block_checksum then le32 (hash b)
          else [])).length
          = (b.length ||| 0x80000000) % 2 ^ 31
            + (if ld.block_checksum then 4 else 0) := by
        rw [hmod, hbc]
        cases hc : lc.block_checksum <;> simp [hc, le32_length]
      have hdec0 := lz4_decompress_body decompressFn hash ld b b false
        (Hh b) (by simp)
      rw [show (if ld.block_checksum then le32 (hash b) else ([] : List Nat))
            = (if lc.block_checksum then le32 (hash b) else [])
          from by rw [hbc]] at hdec0
      have hdec : lz4_decompress decompressFn hash ld
          (b ++ (if lc.block_checksum then le32 (hash b) else []))
          ld.block_size (decide ((b.length ||| 0x80000000) < 2 ^ 31))
          = (if ld.content_checksum then
              { ld with xxh := xxhUpdate ld.xxh b } else ld, .ok b) := by
        rw [hcdec]
        exact hdec0
      have hstream : (encodeBlocks compressFn hash lc (b :: rest)).2 ++ tail
          = le32 (b.length ||| 0x80000000)
            ++ (b ++ (if lc.block_checksum then le32 (hash b) else []))
            ++ ((encodeBlocks compressFn hash
                  (lz4_compress_block compressFn hash lc b
                    (lc.compressed_size + lc.block_header_size)).1
                  rest).2 ++ tail) := by
        simp only [encodeBlocks]
        rw [hout]
        simp [List.append_assoc]
      have hstep : decodeFrame decompressFn hash ((b :: rest).length + 1) ld
          ((encodeBlocks compressFn hash lc (b :: rest)).2 ++ tail) acc
          = decodeFrame decompressFn hash (rest.length + 1)
            (if ld.content_checksum then
              { ld with xxh := xxhUpdate ld.xxh b } else ld)
            ((encodeBlocks compressFn hash
                (lz4_compress_block compressFn hash lc b
                  (lc.compressed_size + lc.block_header_size)).1 rest).2
              ++ tail) (acc ++ b) := by
        rw [hstream]
        exact decodeFrame_step decompressFn hash (rest.length + 1) ld _
          (b.length ||| 0x80000000)
          (b ++ (if lc.block_checksum then le32 (hash b) else [])) _ acc b
          hf32 hfne hbody hdec
      have hldbc : (if ld.content_checksum then
          { ld with xxh := xxhUpdate ld.xxh b } else ld).block_checksum
          = ld.block_checksum := by
        split_ifs <;> rfl
      have hldbs : (if ld.content_checksum then
          { ld with xxh := xxhUpdate ld.xxh b } else ld).block_size
          = ld.block_size := by
        split_ifs <;> rfl
      obtain ⟨lfin, hrec⟩ := decode_encode_blocks compressFn decompressFn
        hash Hh Hpos Hrt rest
        (lz4_compress_block compressFn hash lc b
          (lc.compressed_size + lc.block_header_size)).1
        (if ld.content_checksum then
          { ld with xxh := xxhUpdate ld.xxh b } else ld)
        (acc ++ b) tail
        (by rw [hldbc, hbc, hfields.1])
        (by rw [hldbs]; exact hrest)
        (by rw [hldbs]; exact hbs) htl htz
      refine ⟨lfin, ?_⟩
      rw [hstep, hrec]
      simp [List.append_assoc]
    · -- the genuinely-compressed branch
      simp only [if_neg hraw] at hout
      have hlt : (compressFn b (lc.compressed_size + lc.block_header_size
          - lc.block_header_size)).length < b.length := by omega
      have hbne : b ≠ [] := by
        intro hnil
        rw [hnil] at hlt
        simp at hlt
      have hcne : compressFn b (lc.compressed_size + lc.block_header_size
          - lc.block_header_size) ≠ [] := Hpos b _ hbne
      have hcpos : 0 < (compressFn b (lc.compressed_size
          + lc.block_header_size - lc.block_header_size)).length :=
        List.length_pos.mpr hcne
      have hclt : (compressFn b (lc.compressed_size + lc.block_header_size
          - lc.block_header_size)).length < 2 ^ 31 := by omega
      have hf32 : (compressFn b (lc.compressed_size + lc.block_header_size
          - lc.block_header_size)).length < 2 ^ 32 := by omega
      have hfne : (compressFn b (lc.compressed_size + lc.block_header_size
          - lc.block_header_size)).length ≠ 0 := by omega
      have hmod : (compressFn b (lc.compressed_size + lc.block_header_size
          - lc.block_header_size)).length % 2 ^ 31
          = (compressFn b (lc.compressed_size + lc.block_header_size
            - lc.block_header_size)).length := by omega
      have hcdec : decide ((compressFn b (lc.compressed_size
          + lc.block_header_size - lc.block_header_size)).length < 2 ^ 31)
          = true := decide_eq_true hclt
      have hbody : ((compressFn b (lc.compressed_size + lc.block_header_size
          - lc.block_header_size))
          ++ (if lc.block_checksum then
              le32 (hash (compressFn b (lc.compressed_size
                + lc.block_header_size - lc.block_header_size)))
            else [])).length
          = (compressFn b (lc.compressed_size + lc.block_header_size
            - lc.block_header_size)).length % 2 ^ 31
            + (if ld.block_checksum then 4 else 0) := by
        rw [hmod, hbc]
        cases hc : lc.block_checksum <;> simp [hc, le32_length]
      have hdec0 := lz4_decompress_body decompressFn hash ld
        (compressFn b (lc.compressed_size + lc.block_header_size
          - lc.block_header_size)) b true (Hh _)
        (by
          simp only [if_true]
          exact Hrt b _ ld.block_size hlt hble)
      rw [show (if ld.block_checksum then
              le32 (hash (compressFn b (lc.compressed_size
                + lc.block_header_size - lc.block_header_size)))
            else ([] : List Nat))
            = (if lc.block_checksum then
              le32 (hash (compressFn b (lc.compressed_size
                + lc.block_header_size - lc.block_header_size)))
            else [])
          from by rw [hbc]] at hdec0
      have hdec : lz4_decompress decompressFn hash ld
          ((compressFn b (lc.compressed_size + lc.block_header_size
            - lc.block_header_size))
            ++ (if lc.block_checksum then
                le32 (hash (compressFn b (lc.compressed_size
                  + lc.block_header_size - lc.block_header_size)))
              else []))
          ld.block_size
          (decide ((compressFn b (lc.compressed_size + lc.block_header_size
            - lc.block_header_size)).length < 2 ^ 31))
          = (if ld.content_checksum then
              { ld with xxh := xxhUpdate ld.xxh b } else ld, .ok b) := by
        rw [hcdec]
        exact hdec0
      have hstream : (encodeBlocks compressFn hash lc (b :: rest)).2 ++ tail
          = le32 (compressFn b (lc.compressed_size + lc.block_header_size
              - lc.block_header_size)).length
            ++ ((compressFn b (lc.compressed_size + lc.block_header_size
                - lc.block_header_size))
              ++ (if lc.block_checksum then
                  le32 (hash (compressFn b (lc.compressed_size
                    + lc.block_header_size - lc.block_header_size)))
                else []))
            ++ ((encodeBlocks compressFn hash
                  (lz4_compress_block compressFn hash lc b
                    (lc.compressed_size + lc.block_header_size)).1
                  rest).2 ++ tail) := by
        simp only [encodeBlocks]
        rw [hout]
        simp [List.append_assoc]
      have hstep : decodeFrame decompressFn hash ((b :: rest).length + 1) ld
          ((encodeBlocks compressFn hash lc (b :: rest)).2 ++ tail) acc
          = decodeFrame decompressFn hash (rest.length + 1)
            (if ld.content_checksum then
              { ld with xxh := xxhUpdate ld.xxh b } else ld)
            ((encodeBlocks compressFn hash
                (lz4_compress_block compressFn hash lc b
                  (lc.compressed_size + lc.block_header_size)).1 rest).2
              ++ tail) (acc ++ b) := by
        rw [hstream]
        exact decodeFrame_step decompressFn hash (rest.length + 1) ld _
          (compressFn b (lc.compressed_size + lc.block_header_size
            - lc.block_header_size)).length
          ((compressFn b (lc.compressed_size + lc.block_header_size
            - lc.block_header_size))
            ++ (if lc.block_checksum then
                le32 (hash (compressFn b (lc.compressed_size
                  + lc.block_header_size - lc.block_header_size)))
              else [])) _ acc b hf32 hfne hbody hdec
      have hldbc : (if ld.content_checksum then
          { ld with xxh := xxhUpdate ld.xxh b } else ld).block_checksum
          = ld.block_checksum := by
        split_ifs <;> rfl
      have hldbs : (if ld.content_checksum then
          { ld with xxh := xxhUpdate ld.xxh b } else ld).block_size
          = ld.block_size := by
        split_ifs <;> rfl
      obtain ⟨lfin, hrec⟩ := decode_encode_blocks compressFn decompressFn
        hash Hh Hpos Hrt rest
        (lz4_compress_block compressFn hash lc b
          (lc.compressed_size + lc.block_header_size)).1
        (if ld.content_checksum then
          { ld with xxh := xxhUpdate ld.xxh b } else ld)
        (acc ++ b) tail
        (by rw [hldbc, hbc, hfields.1])
        (by rw [hldbs]; exact hrest)
        (by rw [hldbs]; exact hbs) htl htz
      refine ⟨lfin, ?_⟩
      rw [hstep, hrec]
      simp [List.append_assoc]

/-- A decompression session built from a compression session's own
descriptor recovers the same flags and block size. -/
theorem init_decompress_fields (bound : Nat → Nat) (level : Int)
    (size : lz4_block_size_t) (bc cc : Bool) (ld : lz4_t)
    (hld : lz4_init_decompress bound
        (lz4_init bound level size bc cc).header = some ld) :
    ld.block_checksum = bc
    ∧ ld.block_size = (lz4_init bound level size bc cc).block_size
    ∧ ld.block_size < 2 ^ 31 := by
  cases size <;> cases bc <;> cases cc <;>
    simp_all [lz4_init, lz4_init_decompress, lz4_check_header,
      d_64kb, c_64kb, b_64kb, cb_64kb, d_256kb, c_256kb, b_256kb, cb_256kb,
      d_1mb, c_1mb, b_1mb, cb_1mb, d_4mb, c_4mb, b_4mb, cb_4mb] <;>
    (subst hld; exact ⟨rfl, rfl, by norm_num⟩)

set_option maxHeartbeats 800000 in
/-- C1: for every size class, every checksum-flag combination, and every
list of blocks of at most `block_size` bytes each, decoding the stream
produced by `lz4_compress_block` (terminated by `lz4_finish`) with
`lz4_decompress` via the spec's caller loop reproduces the original
bytes, whenever the external hash is 32-bit, the external compressor
never returns its failure sentinel on nonempty input, and the external
decompressor inverts the compressor. -/
theorem c1_roundtrip (bound : Nat → Nat) (level : Int)
    (size : lz4_block_size_t) (bc cc : Bool)
    (compressFn : List Nat → Nat → List Nat)
    (decompressFn : List Nat → Nat → Option (List Nat))
    (hash : List Nat → Nat) (junk : Nat)
    (Hh : ∀ s, hash s < 2 ^ 32)
    (Hpos : ∀ s cap, s ≠ [] → compressFn s cap ≠ [])
    (Hrt : ∀ s cap d, (compressFn s cap).length < s.length → s.length ≤ d →
      decompressFn (compressFn s cap) d = some s)
    (blocks : List (List Nat))
    (Hb : ∀ b ∈ blocks,
      b.length ≤ (lz4_init bound level size bc cc).block_size)
    (ld : lz4_t)
    (hld : lz4_init_decompress bound
        (lz4_init bound level size bc cc).header = some ld) :
    (decodeFrame decompressFn hash (blocks.length + 1) ld
        (encodeFrame compressFn hash junk
          (lz4_init bound level size bc cc) blocks) []).map
      (fun r => r.2.1)
      = some blocks.flatten := by
  obtain ⟨hbcf, hbsf, hlt⟩ :=
    init_decompress_fields bound level size bc cc ld hld
  have hctx : (encodeBlocks compressFn hash
      (lz4_init bound level size bc cc) blocks).1.ctx = true := by
    rw [(encodeBlocks_fields compressFn hash blocks
      (lz4_init bound level size bc cc)).1]
    rfl
  obtain ⟨htl, htz⟩ := finish_tail hash junk _ hctx
  have hbc' : ld.block_checksum
      = (lz4_init bound level size bc cc).block_checksum := by
    rw [hbcf]
    rfl
  obtain ⟨lfin, hdec⟩ := decode_encode_blocks compressFn decompressFn hash
    Hh Hpos Hrt blocks (lz4_init bound level size bc cc) ld []
    (lz4_finish hash junk (encodeBlocks compressFn hash
      (lz4_init bound level size bc cc) blocks).1 []).2
    hbc'
    (by intro x hx; rw [hbsf]; exact Hb x hx)
    hlt htl htz
  rw [show encodeFrame compressFn hash junk
        (lz4_init bound level size bc cc) blocks
      = (encodeBlocks compressFn hash
          (lz4_init bound level size bc cc) blocks).2
        ++ (lz4_finish hash junk (encodeBlocks compressFn hash
            (lz4_init bound level size bc cc) blocks).1 []).2
    from rfl]
  rw [hdec]
  simp

/-- C1 witness: a two-block stream (one three-byte block and one empty
block) through the 64KB class with both checksums, an identity
compressor and a constant hash. -/
theorem c1_roundtrip_witness :
    (decodeFrame (fun _ _ => none) (fun _ => 0) ([[1, 2, 3], []].length + 1)
        ⟨.s64kb, true, true, 1, cb_64kb, 7, 65536, 65552, 4, some [], false⟩
        (encodeFrame (fun s _ => s) (fun _ => 0) 0
          (lz4_init (fun n => n + 16) 1 .s64kb true true)
          [[1, 2, 3], []]) []).map
      (fun r => r.2.1)
      = some [1, 2, 3] :=
  c1_roundtrip (fun n => n + 16) 1 .s64kb true true (fun s _ => s)
    (fun _ _ => none) (fun _ => 0) 0 (fun _ => by norm_num)
    (fun _ _ h => h) (fun s _ _ hlt _ => absurd hlt (lt_irrefl _))
    [[1, 2, 3], []] (by decide) _ rfl

end LZ4
